import Mathlib

/-!
Shallow embedding of the fiosfon privacy pipeline.

Sources embedded:
- script.js: RISK_WEIGHTS, PURPOSE_BONUS, SECTION_CAPS, smoothScale, computePrivacyScore
- scripts/scrape-privacy.mjs: the token normaliser (regex rule chain)
- scrape-privacy.mjs: the second token normaliser norm, and enrichApps cache policy
- unnamed/part_003: ALLOWED set and cleanTokens
- scripts/update-apps.mjs: uniqueByAppIdOrKey
-/

namespace Fiosfon

/-! ## Character and string helpers (JS semantics: trim, toLowerCase, regex /i substring search) -/

/-- Whitespace characters recognised by JS `\s`, `trim` (the ones that occur in this data). -/
def wsChar (c : Char) : Bool :=
  c = ' ' || c = '\t' || c = '\n' || c = '\r' || c = ' '

/-- ASCII lower-casing, as JS `toLowerCase` / regex `/i` behave on the ASCII tokens involved. -/
def lowerChar (c : Char) : Char :=
  if 'A' ≤ c && c ≤ 'Z' then Char.ofNat (c.toNat + 32) else c

def lowerL (l : List Char) : List Char := l.map lowerChar

/-- JS `String.prototype.trim`: drop whitespace from both ends. -/
def trimL (l : List Char) : List Char :=
  ((l.dropWhile wsChar).reverse.dropWhile wsChar).reverse

def trimStr (s : String) : String := ⟨trimL s.data⟩

/-- Does `l` start with `pat`? -/
def startsL : List Char → List Char → Bool
  | [], _ => true
  | _ :: _, [] => false
  | p :: ps, c :: cs => p = c && startsL ps cs

/-- Unanchored substring search: does `pat` occur anywhere in `l`? -/
def infixL (pat : List Char) : List Char → Bool
  | [] => startsL pat []
  | c :: cs => startsL pat (c :: cs) || infixL pat cs

/-- Search for `a` followed by arbitrary whitespace followed by `b`
(the JS pattern `a\s*b`). -/
def seqAt (a b l : List Char) : Bool :=
  startsL a l && startsL b ((l.drop a.length).dropWhile wsChar)

def seqL (a b : List Char) : List Char → Bool
  | [] => seqAt a b []
  | c :: cs => seqAt a b (c :: cs) || seqL a b cs

/-- Case-insensitive substring test `pat` in `t` (`pat` given in lowercase). -/
def ctn (t : String) (pat : String) : Bool := infixL pat.data (lowerL t.data)

/-- Case-insensitive test for `a\s*b` in `t` (`a`, `b` given in lowercase). -/
def ctn2 (t : String) (a b : String) : Bool := seqL a.data b.data (lowerL t.data)

/-- A priority-ordered rule chain: the first rule whose test accepts the token
gives the canonical name; a token accepted by no rule is returned unchanged.
This is exactly the if/else-if regex cascade of the JS normalisers. -/
def applyRules : List ((String → Bool) × String) → String → String
  | [], t => t
  | (p, c) :: rs, t => if p t then c else applyRules rs t

/-! ## Category Normalizer (scripts/scrape-privacy.mjs, `normalise`)

The regex rule chain applied to each trimmed token. An unanchored search for
`photos?` succeeds exactly when `photo` occurs, likewise `messages?`/`message`
and `contacts?`/`contact`, so the optional plural markers reduce to the stem. -/
def NORMALISE_RULES : List ((String → Bool) × String) :=
  [(fun t => ctn t "purchase", "Purchases"),
   (fun t => ctn t "identifier", "Identifiers"),
   (fun t => ctn t "usage", "Usage Data"),
   (fun t => ctn t "diagnostic" || ctn t "crash", "Diagnostics"),
   (fun t => ctn2 t "contact" "info", "Contact Info"),
   (fun t => ctn2 t "user" "content", "User Content"),
   (fun t => ctn t "browsing" || ctn2 t "search" "history", "Browsing/Search History"),
   (fun t => ctn t "location", "Location"),
   (fun t => ctn t "financial", "Financial Info"),
   (fun t => ctn t "photo" || ctn t "video", "Photos or Videos"),
   (fun t => ctn t "audio", "Audio Data"),
   (fun t => ctn t "message", "Messages"),
   (fun t => ctn t "contact", "Contacts"),
   (fun t => ctn t "health" || ctn t "fitness", "Health & Fitness"),
   (fun t => ctn t "sensitive", "Sensitive Info")]

def normPat (t : String) : String := applyRules NORMALISE_RULES t

/-- One token of `normalise`: the two map stages `String(v).trim()` then the rule chain. -/
def normToken (v : String) : String := normPat (trimStr v)

/-- The canonical names the `normalise` rule chain can produce. -/
def NORMALISE_TAXONOMY : List String :=
  ["Purchases", "Identifiers", "Usage Data", "Diagnostics", "Contact Info",
   "User Content", "Browsing/Search History", "Location", "Financial Info",
   "Photos or Videos", "Audio Data", "Messages", "Contacts",
   "Health & Fitness", "Sensitive Info"]

/-- The rule chain of the second normaliser `norm` (scrape-privacy.mjs, lines 119-132). -/
def NORM_RULES : List ((String → Bool) × String) :=
  [(fun t => ctn t "purchase", "Purchases"),
   (fun t => ctn t "identifier" || ctn t "device id" || ctn t "user id", "Identifiers"),
   (fun t => ctn t "usage" || ctn t "product interaction" || ctn t "performance data",
    "Usage Data"),
   (fun t => ctn t "diagnostic", "Diagnostics"),
   (fun t => ctn2 t "contact" "info" || ctn t "email address" || ctn t "phone",
    "Contact Info"),
   (fun t => ctn2 t "user" "content" || ctn t "photo" || ctn t "video", "User Content"),
   (fun t => ctn t "browsing" || ctn t "search history", "Browsing/Search History"),
   (fun t => ctn t "location", "Location"),
   (fun t => ctn t "health", "Health & Fitness"),
   (fun t => ctn t "financial", "Financial Info")]

def normPatB (t : String) : String := applyRules NORM_RULES t

/-- One token of `norm`: `v.trim()` then the rule chain. -/
def normTokenB (v : String) : String := normPatB (trimStr v)

/-- The canonical names `norm` can produce. -/
def NORM_TAXONOMY : List String :=
  ["Purchases", "Identifiers", "Usage Data", "Diagnostics", "Contact Info",
   "User Content", "Browsing/Search History", "Location", "Health & Fitness",
   "Financial Info"]

/-! ## First-occurrence deduplication (JS `Array.from(new Set(...))` and `Map` keys) -/

def nubAux {α β : Type} [DecidableEq β] (key : α → β) (seen : List β) :
    List α → List α
  | [] => []
  | a :: rest =>
    if key a ∈ seen then nubAux key seen rest
    else a :: nubAux key (key a :: seen) rest

/-- Keep the first occurrence of each key, preserving order. -/
def nubKey {α β : Type} [DecidableEq β] (key : α → β) (l : List α) : List α :=
  nubAux key [] l

/-- List-level `normalise`: map each token through the rule chain, dedup as a JS Set. -/
def normaliseList (arr : List String) : List String :=
  nubKey id (arr.map normToken)

/-! ## Allow-list filter (unnamed/part_003: ALLOWED / cleanTokens) -/

/-- Exact category whitelist of the alternative extractor. -/
def ALLOWED : List String :=
  ["Contact Info", "Health & Fitness", "Financial Info", "Location", "Sensitive Info",
   "User Content", "Identifiers", "Purchases", "Usage Data", "Diagnostics", "Contacts",
   "Search History", "Browsing History", "Browsing/Search History", "Audio Data",
   "Photos or Videos", "Messages", "Other Data", "Other Data Types", "Customer Support",
   "Name"]

/-- Collapse runs of whitespace to a single space (JS `replace(/\s+/g, " ")`);
the flag records whether the previous character was whitespace. -/
def collapseWsAux : Bool → List Char → List Char
  | _, [] => []
  | inWs, c :: cs =>
    if wsChar c then (if inWs then [] else [' ']) ++ collapseWsAux true cs
    else c :: collapseWsAux false cs

def collapseWs (l : List Char) : List Char := collapseWsAux false l

/-- One token of `cleanTokens`: collapse whitespace, trim, then apply the skip rules. -/
def keepToken (raw : String) : Option String :=
  let t : String := ⟨trimL (collapseWs raw.data)⟩
  if t = "" then none
  else if lowerL t.data = "app privacy".data then none
  else if lowerL t.data = "see details".data then none
  else if lowerL t.data = "learn more".data then none
  else if 40 < t.data.length then none
  else if t ∈ ALLOWED then some t
  else none

/-- `cleanTokens` from unnamed/part_003: whitelist filter plus Set dedup. -/
def cleanTokens (tokens : List String) : List String :=
  nubKey id (tokens.filterMap keepToken)

/-! ## Intensity scorer (script.js lines 180-258)

The JS arithmetic is IEEE double; we embed it over the exact reals, which is the
mathematical content the spec describes (sqrt, logistic curve, rounding). -/

inductive Band
  | Low
  | Medium
  | High
deriving DecidableEq, Repr

/-- The three privacy-label buckets of a record
("Data Used to Track You" / "Data Linked to You" / "Data Not Linked to You"). -/
structure Labels where
  track : List String
  linked : List String
  notLinked : List String
deriving DecidableEq, Repr

/-- One `privacy_details` entry as the scorer reads it: `purposes` is `some ps`
exactly when `Array.isArray(det.purposes)` holds, `tracked` is the truthiness of
`det.tracked`. Subtype lists and the other flags are never read by the scorer. -/
structure Detail where
  purposes : Option (List String)
  tracked : Bool
deriving DecidableEq, Repr

/-- The fields of an app object read by `computePrivacyScore`:
`privacy_labels` (possibly absent) and `privacy_details` (as an association list,
first entry per key wins, mirroring JS object lookup on distinct keys). -/
structure ScorerInput where
  labels : Option Labels
  details : List (String × Detail)
deriving DecidableEq, Repr

/-- `RISK_WEIGHTS.track`; absent categories give `weights[cat] || 0 = 0`. -/
def wTrack : String → ℕ
  | "Identifiers" => 12
  | "Location" => 12
  | "Contact Info" => 10
  | "Financial Info" => 12
  | "Health & Fitness" => 12
  | "Browsing/Search History" => 10
  | "User Content" => 8
  | "Purchases" => 6
  | "Usage Data" => 6
  | "Diagnostics" => 2
  | "Photos or Videos" => 8
  | "Audio Data" => 6
  | "Messages" => 10
  | "Contacts" => 8
  | "Sensitive Info" => 12
  | _ => 0

/-- `RISK_WEIGHTS.linked`. -/
def wLinked : String → ℕ
  | "Identifiers" => 9
  | "Location" => 9
  | "Contact Info" => 8
  | "Financial Info" => 9
  | "Health & Fitness" => 9
  | "Browsing/Search History" => 8
  | "User Content" => 7
  | "Purchases" => 4
  | "Usage Data" => 4
  | "Diagnostics" => 1
  | "Photos or Videos" => 7
  | "Audio Data" => 5
  | "Messages" => 8
  | "Contacts" => 6
  | "Sensitive Info" => 10
  | _ => 0

/-- `RISK_WEIGHTS.notLinked`. -/
def wNotLinked : String → ℕ
  | "Identifiers" => 2
  | "Location" => 2
  | "Contact Info" => 2
  | "Financial Info" => 2
  | "Health & Fitness" => 2
  | "Browsing/Search History" => 2
  | "User Content" => 2
  | "Purchases" => 1
  | "Usage Data" => 1
  | "Diagnostics" => 1
  | "Photos or Videos" => 2
  | "Audio Data" => 1
  | "Messages" => 2
  | "Contacts" => 1
  | "Sensitive Info" => 3
  | _ => 0

/-- The categories listed in the fixed weight tables. -/
def WEIGHT_CATS : List String :=
  ["Identifiers", "Location", "Contact Info", "Financial Info", "Health & Fitness",
   "Browsing/Search History", "User Content", "Purchases", "Usage Data", "Diagnostics",
   "Photos or Videos", "Audio Data", "Messages", "Contacts", "Sensitive Info"]

/-- `PURPOSE_BONUS`; unknown purposes give `PURPOSE_BONUS[p] || 0 = 0`. -/
def purposeBonus : String → ℕ
  | "Advertising" => 6
  | "Developer\x27s Advertising" => 4
  | "Personalization" => 4
  | "Product Personalization" => 3
  | "Analytics" => 2
  | "Fraud Prevention" => 3
  | "App Functionality" => 0
  | "Other Purposes" => 1
  | _ => 0

/-- `SECTION_CAPS`. -/
def CAP_track : ℝ := 70

def CAP_linked : ℝ := 50

def CAP_notLinked : ℝ := 20

/-- First-match association-list lookup, as JS `details[cat]` on the embedded object. -/
def lookupD (c : String) : List (String × Detail) → Option Detail
  | [] => none
  | (k, d) :: rest => if k = c then some d else lookupD c rest

/-- Sum of purpose bonuses over the (possibly repetitious) purposes array:
`for (const p of det.purposes) base += (PURPOSE_BONUS[p] || 0)`. -/
def purposesSum (ps : List String) : ℕ := (ps.map purposeBonus).sum

/-- The per-category contribution `base` inside `scoreSection`. -/
def baseOf (isTrack : Bool) (details : List (String × Detail)) (weights : String → ℕ)
    (cat : String) : ℕ :=
  weights cat +
    match lookupD cat details with
    | some d =>
      match d.purposes with
      | some ps => purposesSum ps + (if !isTrack && d.tracked then 3 else 0)
      | none => 0
    | none => 0

/-- The raw weighted sum of one bucket: `Set(items.map(s => String(s).trim()))`
iterated, adding `base` per distinct category. A sum over a JS Set is
order-independent, so any duplicate-free list with the same elements -
here `List.dedup` - gives the same value. -/
def sectionSum (isTrack : Bool) (items : List String) (weights : String → ℕ)
    (details : List (String × Detail)) : ℕ :=
  (((items.map trimStr).dedup).map (baseOf isTrack details weights)).sum

/-- Diminishing returns: `Math.min(Math.sqrt(sum) * Math.sqrt(cap), cap)`. -/
noncomputable def sectionScore (s : ℕ) (cap : ℝ) : ℝ :=
  min (Real.sqrt s * Real.sqrt cap) cap

/-- `app.privacy_labels || {}` with `labels[...] || []` per bucket. -/
def sectionsOf (app : ScorerInput) : Labels := app.labels.getD ⟨[], [], []⟩

def sumTrack (app : ScorerInput) : ℕ :=
  sectionSum true (sectionsOf app).track wTrack app.details

def sumLinked (app : ScorerInput) : ℕ :=
  sectionSum false (sectionsOf app).linked wLinked app.details

def sumNotLinked (app : ScorerInput) : ℕ :=
  sectionSum false (sectionsOf app).notLinked wNotLinked app.details

/-- `raw = sTrack + sLinked + sNotLinked`. -/
noncomputable def rawTotal (app : ScorerInput) : ℝ :=
  sectionScore (sumTrack app) CAP_track + sectionScore (sumLinked app) CAP_linked +
    sectionScore (sumNotLinked app) CAP_notLinked

/-- `smoothScale` from script.js lines 214-219. -/
noncomputable def smoothScale (x m : ℝ) : ℝ :=
  (1 / (1 + Real.exp (-(5 * (max 0 (min 1 (x / m)) - 1 / 2))))) * 100

/-- `Math.round(smoothScale(raw, 140))`; `Math.round` rounds half-up, as `round`. -/
noncomputable def privacyScore (app : ScorerInput) : ℤ :=
  round (smoothScale (rawTotal app) 140)

/-- The band thresholds of `computePrivacyScore`. -/
def bandOf (s : ℤ) : Band :=
  if 66 ≤ s then Band.High else if 33 ≤ s then Band.Medium else Band.Low

noncomputable def privacyBand (app : ScorerInput) : Band := bandOf (privacyScore app)

/-! ### Record mutations used in the monotonicity claim -/

inductive BucketName
  | track
  | linked
  | notLinked
deriving DecidableEq, Repr

def addToLabels : BucketName → String → Labels → Labels
  | BucketName.track, c, L => { L with track := c :: L.track }
  | BucketName.linked, c, L => { L with linked := c :: L.linked }
  | BucketName.notLinked, c, L => { L with notLinked := c :: L.notLinked }

/-- Add category `c` to bucket `b` of the record. -/
def addCategory (b : BucketName) (c : String) (app : ScorerInput) : ScorerInput :=
  { app with labels := some (addToLabels b c (sectionsOf app)) }

/-- Add purpose `p` to a details entry. -/
def addPurposeD (p : String) (d : Detail) : Detail :=
  { d with purposes := some (match d.purposes with | some ps => p :: ps | none => [p]) }

/-- Update the (first) details entry with key `c`, leaving the list unchanged when absent. -/
def updDetails (c : String) (f : Detail → Detail) :
    List (String × Detail) → List (String × Detail)
  | [] => []
  | (k, d) :: rest => if k = c then (k, f d) :: rest else (k, d) :: updDetails c f rest

/-- Add purpose `p` to the existing details entry for category `c`. -/
def addPurpose (c p : String) (app : ScorerInput) : ScorerInput :=
  { app with details := updDetails c (addPurposeD p) app.details }

/-! ### The scoring pipeline as the spec words it (for the refinement claim C5) -/

def SPEC_K : ℝ := 5

/-- Modelled from the spec: `maxTotal` equals the sum of the three caps. -/
def SPEC_MAX_TOTAL : ℝ := CAP_track + CAP_linked + CAP_notLinked

/-- Modelled from the spec: the logistic curve `y = 100 / (1 + e^(-k*(t-0.5)))`. -/
noncomputable def specLogistic (t : ℝ) : ℝ :=
  100 / (1 + Real.exp (-(SPEC_K * (t - 0.5))))

/-- Modelled from the spec: per-bucket diminishing returns `min(sqrt(s)*sqrt(cap), cap)`. -/
noncomputable def specCapped (s : ℕ) (cap : ℝ) : ℝ :=
  min (Real.sqrt s * Real.sqrt cap) cap

/-- Modelled from the spec: sum of the three capped bucket scores. -/
noncomputable def specRawTotal (app : ScorerInput) : ℝ :=
  specCapped (sumTrack app) CAP_track + specCapped (sumLinked app) CAP_linked +
    specCapped (sumNotLinked app) CAP_notLinked

/-- Modelled from the spec: `t = rawTotal/maxTotal` clamped to `[0,1]`, mapped
through the logistic curve and rounded to the nearest integer. -/
noncomputable def specScore (app : ScorerInput) : ℤ :=
  round (specLogistic (max 0 (min 1 (specRawTotal app / SPEC_MAX_TOTAL))))

/-! ## Cache policy of `enrichApps` (scrape-privacy.mjs lines 208-233) -/

/-- A cached privacy record: `as_of` as parsed milliseconds, plus the labels. -/
structure PrivRecord where
  asOf : ℤ
  labels : Labels
deriving DecidableEq, Repr

/-- The chart-entry fields the enrichment step reads or writes
(icon and source-link plumbing omitted; the claims do not touch them). -/
structure AppEntry where
  rank : ℕ
  name : String
  developer : String
  app_id : Option String
  privacy_labels : Option Labels
  tracking_summary : Option (List String)
deriving DecidableEq, Repr

/-- `14*24*3600*1000` milliseconds. -/
def TTL_MS : ℤ := 14 * 24 * 3600 * 1000

/-- `normalizeSummary` from scrape-privacy.mjs lines 196-203. -/
def normalizeSummary (L : Labels) : List String :=
  (if L.track.isEmpty then []
   else ["Identifiers and usage data may be used for advertising/personalisation."]) ++
  (if L.linked.isEmpty then []
   else ["Some data may be collected and linked to your identity for app functionality or analytics."])

/-- `if (priv?.privacy_labels) { merged.privacy_labels = ...; merged.tracking_summary = ... }`. -/
def mergeEnrich (app : AppEntry) : Option PrivRecord → AppEntry
  | some r =>
    { app with
      privacy_labels := some r.labels
      tracking_summary := some (normalizeSummary r.labels) }
  | none => app

/-- Outcome of one `enrichApps` task: the merged entry, what `saveCache` wrote
(`none` when nothing was written - the cache file is never deleted), whether
`scrapePrivacyForApp` was invoked, and the record `priv` held at merge time. -/
structure EnrichResult where
  merged : AppEntry
  saved : Option PrivRecord
  calledExtractor : Bool
  used : Option PrivRecord
deriving DecidableEq, Repr

/-- One task of `enrichApps`: the freshness test
`priv && (Date.now()-Date.parse(priv.as_of) < 14*24*3600*1000)`, the guarded
re-scrape in a try/catch that keeps the stale `priv` on failure, and the merge. -/
def enrichOne (app : AppEntry) (cache : Option PrivRecord) (now : ℤ)
    (extract : Except Unit PrivRecord) : EnrichResult :=
  match app.app_id with
  | none => ⟨app, none, false, none⟩
  | some _ =>
    let fresh : Bool :=
      match cache with
      | some p => decide (now - p.asOf < TTL_MS)
      | none => false
    if fresh then ⟨mergeEnrich app cache, none, false, cache⟩
    else
      match extract with
      | Except.ok r => ⟨mergeEnrich app (some r), some r, true, some r⟩
      | Except.error _ => ⟨mergeEnrich app cache, none, true, cache⟩

/-- The whole `enrichApps` pass: one independent task per entry; a task failure
is caught inside `enrichOne`, so every entry yields a result. -/
def enrichList (apps : List AppEntry) (cache : AppEntry → Option PrivRecord) (now : ℤ)
    (extract : AppEntry → Except Unit PrivRecord) : List EnrichResult :=
  apps.map fun a => enrichOne a (cache a) now (extract a)

/-! ## Chart deduplication (scripts/update-apps.mjs lines 135-144) -/

def lowerStr (s : String) : String := ⟨lowerL s.data⟩

/-- `keyFor`: prefer `id:` + app_id, fall back to `nk:` + lowercased name|developer. -/
def keyFor (a : AppEntry) : String :=
  match a.app_id with
  | some i => "id:" ++ i
  | none => "nk:" ++ lowerStr a.name ++ "|" ++ lowerStr a.developer

/-- `uniqueByAppIdOrKey`: insert each entry into a Map under its key unless the
key is already present; the Map values come back in insertion order. -/
def uniqueByAppIdOrKey (apps : List AppEntry) : List AppEntry :=
  nubKey keyFor apps

/-- Reference formulation of first-occurrence-wins deduplication: keep the head,
drop every later entry sharing its key, recurse. -/
def firstWins : List AppEntry → List AppEntry
  | [] => []
  | a :: rest => a :: firstWins (rest.filter fun b => decide (keyFor b ≠ keyFor a))
  termination_by l => l.length
  decreasing_by
    simpa using Nat.lt_succ_of_le (List.length_filter_le _ rest)

/-! ## Theorems -/

theorem dropWhile_self {α : Type} (p : α → Bool) (l : List α) :
    (l.dropWhile p).dropWhile p = l.dropWhile p := by
  cases h : l.dropWhile p with
  | nil => rfl
  | cons a t =>
    have ha : p a = false := by
      have h2 := List.head?_dropWhile_not p l
      rw [h] at h2
      exact h2
    simp [List.dropWhile_cons, ha]

theorem dropWhile_trimL (l : List Char) : (trimL l).dropWhile wsChar = trimL l := by
  unfold trimL
  cases hd : l.dropWhile wsChar with
  | nil => simp
  | cons h t =>
    have hh : wsChar h = false := by
      have h2 := List.head?_dropWhile_not wsChar l
      rw [hd] at h2
      exact h2
    rw [List.reverse_cons, List.dropWhile_append]
    split
    · simp [List.dropWhile_cons, hh]
    · simp [List.reverse_append, List.dropWhile_cons, hh]

theorem trimL_idem (l : List Char) : trimL (trimL l) = trimL l := by
  conv_lhs => rw [trimL, dropWhile_trimL l]
  rw [trimL, List.reverse_reverse, dropWhile_self]

theorem trimStr_idem (v : String) : trimStr (trimStr v) = trimStr v := by
  unfold trimStr
  exact congrArg String.mk (trimL_idem v.data)

theorem applyRules_cases (rs : List ((String → Bool) × String)) (t : String) :
    applyRules rs t ∈ rs.map Prod.snd ∨ applyRules rs t = t := by
  induction rs with
  | nil => exact Or.inr rfl
  | cons r rest ih =>
    obtain ⟨p, c⟩ := r
    by_cases h : p t = true
    · left
      simp [applyRules, h]
    · have hstep : applyRules ((p, c) :: rest) t = applyRules rest t := by
        simp [applyRules, h]
      rw [hstep]
      rcases ih with h2 | h2
      · left
        exact List.mem_cons_of_mem _ h2
      · exact Or.inr h2

theorem normPat_cases (t : String) : normPat t ∈ NORMALISE_TAXONOMY ∨ normPat t = t := by
  have h := applyRules_cases NORMALISE_RULES t
  have he : NORMALISE_RULES.map Prod.snd = NORMALISE_TAXONOMY := by rfl
  rw [he] at h
  exact h

theorem normPat_fixed : ∀ c ∈ NORMALISE_TAXONOMY, normPat c = c := by decide

theorem taxonomy_trim_fixed : ∀ c ∈ NORMALISE_TAXONOMY, trimStr c = c := by decide

theorem normPatB_cases (t : String) : normPatB t ∈ NORM_TAXONOMY ∨ normPatB t = t := by
  have h := applyRules_cases NORM_RULES t
  have he : NORM_RULES.map Prod.snd = NORM_TAXONOMY := by rfl
  rw [he] at h
  exact h

theorem normPatB_fixed : ∀ c ∈ NORM_TAXONOMY, normPatB c = c := by decide

theorem taxonomyB_trim_fixed : ∀ c ∈ NORM_TAXONOMY, trimStr c = c := by decide

/-- C6: both token normalisers are idempotent - `normalise` of
scripts/scrape-privacy.mjs and `norm` of scrape-privacy.mjs. Every output either
is a taxonomy member, which every rule chain maps to itself, or is the trimmed
input, which normalises to itself again. -/
theorem C6_normalizer_idempotent :
    (∀ v : String, normToken (normToken v) = normToken v) ∧
    (∀ v : String, normTokenB (normTokenB v) = normTokenB v) := by
  constructor
  · intro v
    unfold normToken
    rcases normPat_cases (trimStr v) with h | h
    · rw [taxonomy_trim_fixed _ h]
      exact normPat_fixed _ h
    · rw [h, trimStr_idem]
      exact h
  · intro v
    unfold normTokenB
    rcases normPatB_cases (trimStr v) with h | h
    · rw [taxonomyB_trim_fixed _ h]
      exact normPatB_fixed _ h
    · rw [h, trimStr_idem]
      exact h

/-- C7 counterexample: the raw token `xyz-unknown-field` matches no rule and is
not a taxonomy member, yet `normalise` keeps it in the output unchanged instead
of dropping it. -/
theorem C7_counterexample :
    normaliseList ["xyz-unknown-field"] = ["xyz-unknown-field"] ∧
    "xyz-unknown-field" ∉ NORMALISE_TAXONOMY := by decide

/-- C7 (amended): the cited normaliser maps `Precise Location` to `Location`
but passes the unmatched token `xyz-unknown-field` through unchanged; unknown
tokens are dropped only by the allow-list filter `cleanTokens` of the
alternative extractor, which filters out `xyz-unknown-field` (and also drops
`Precise Location`, having no synonym rules). -/
theorem C7_unknown_token_handling :
    normToken "Precise Location" = "Location" ∧
    normToken "xyz-unknown-field" = "xyz-unknown-field" ∧
    cleanTokens ["xyz-unknown-field"] = [] ∧
    cleanTokens ["Precise Location"] = [] := by decide

/-- C4 counterexample: for the category `Diagnostics` the linked-bucket weight
equals the not-linked-bucket weight (both 1), so the strict ordering
`linked > notLinked` claimed for every category fails. -/
theorem C4_counterexample :
    "Diagnostics" ∈ WEIGHT_CATS ∧
    wLinked "Diagnostics" = 1 ∧ wNotLinked "Diagnostics" = 1 ∧
    ¬ wLinked "Diagnostics" > wNotLinked "Diagnostics" := by decide

/-- C4 (amended): for every category of the weight tables the tracking weight
strictly exceeds the linked weight, and the linked weight is at least the
not-linked weight; the latter inequality is strict for every category except
`Diagnostics`. -/
theorem C4_weight_ordering :
    (∀ c ∈ WEIGHT_CATS, wTrack c > wLinked c ∧ wLinked c ≥ wNotLinked c) ∧
    (∀ c ∈ WEIGHT_CATS, c ≠ "Diagnostics" → wLinked c > wNotLinked c) := by decide

/-- Witness for C4: the amended ordering applied at concrete categories. -/
theorem C4_weight_ordering_witness :
    wTrack "Identifiers" > wLinked "Identifiers" ∧
    wLinked "Identifiers" ≥ wNotLinked "Identifiers" ∧
    wLinked "Location" > wNotLinked "Location" :=
  ⟨(C4_weight_ordering.1 "Identifiers" (by decide)).1,
   (C4_weight_ordering.1 "Identifiers" (by decide)).2,
   C4_weight_ordering.2 "Location" (by decide) (by decide)⟩

/-! ### Scorer: monotonicity and bounds machinery -/

theorem round_le_of_le {x y : ℝ} (h : x ≤ y) : round x ≤ round y := by
  rw [round_eq, round_eq]
  exact Int.floor_le_floor (by linarith)

theorem smoothScale_mono {x y : ℝ} (h : x ≤ y) : smoothScale x 140 ≤ smoothScale y 140 := by
  unfold smoothScale
  have hd : x / 140 ≤ y / 140 := by linarith
  have ht : max 0 (min 1 (x / 140)) ≤ max 0 (min 1 (y / 140)) :=
    max_le_max le_rfl (min_le_min le_rfl hd)
  have hexp : Real.exp (-(5 * (max 0 (min 1 (y / 140)) - 1 / 2))) ≤
      Real.exp (-(5 * (max 0 (min 1 (x / 140)) - 1 / 2))) :=
    Real.exp_le_exp.mpr (by linarith)
  have h1 : 1 / (1 + Real.exp (-(5 * (max 0 (min 1 (x / 140)) - 1 / 2)))) ≤
      1 / (1 + Real.exp (-(5 * (max 0 (min 1 (y / 140)) - 1 / 2)))) :=
    one_div_le_one_div_of_le (by positivity) (by linarith)
  exact mul_le_mul_of_nonneg_right h1 (by norm_num)

theorem smoothScale_pos (x : ℝ) : 0 < smoothScale x 140 := by
  unfold smoothScale
  positivity

theorem smoothScale_lt_100 (x : ℝ) : smoothScale x 140 < 100 := by
  unfold smoothScale
  have hexp := Real.exp_pos (-(5 * (max 0 (min 1 (x / 140)) - 1 / 2)))
  have h1 : 1 / (1 + Real.exp (-(5 * (max 0 (min 1 (x / 140)) - 1 / 2)))) < 1 := by
    rw [div_lt_one (by positivity)]
    linarith
  have h2 := mul_lt_mul_of_pos_right h1 (show (0 : ℝ) < 100 by norm_num)
  simpa using h2

theorem sectionScore_mono {s1 s2 : ℕ} (h : s1 ≤ s2) (cap : ℝ) :
    sectionScore s1 cap ≤ sectionScore s2 cap := by
  unfold sectionScore
  exact min_le_min
    (mul_le_mul_of_nonneg_right (Real.sqrt_le_sqrt (by exact_mod_cast h))
      (Real.sqrt_nonneg _)) le_rfl

theorem privacyScore_mono {a b : ScorerInput} (h1 : sumTrack a ≤ sumTrack b)
    (h2 : sumLinked a ≤ sumLinked b) (h3 : sumNotLinked a ≤ sumNotLinked b) :
    privacyScore a ≤ privacyScore b := by
  unfold privacyScore
  apply round_le_of_le
  apply smoothScale_mono
  unfold rawTotal
  have e1 := sectionScore_mono h1 CAP_track
  have e2 := sectionScore_mono h2 CAP_linked
  have e3 := sectionScore_mono h3 CAP_notLinked
  linarith

theorem sectionSum_cons_le (b : Bool) (c : String) (items : List String)
    (w : String → ℕ) (d : List (String × Detail)) :
    sectionSum b items w d ≤ sectionSum b (c :: items) w d := by
  unfold sectionSum
  rw [List.map_cons]
  by_cases h : trimStr c ∈ items.map trimStr
  · rw [List.dedup_cons_of_mem h]
  · rw [List.dedup_cons_of_not_mem h, List.map_cons, List.sum_cons]
    exact Nat.le_add_left _ _

theorem lookupD_upd (c : String) (f : Detail → Detail) (d : List (String × Detail))
    (cat : String) :
    lookupD cat (updDetails c f d) =
      if cat = c then (lookupD cat d).map f else lookupD cat d := by
  induction d with
  | nil => simp [updDetails, lookupD]
  | cons kd rest ih =>
    obtain ⟨k, dd⟩ := kd
    by_cases hk : k = c
    · subst hk
      by_cases hc : k = cat
      · subst hc
        simp [updDetails, lookupD]
      · have hc2 : ¬ cat = k := fun h => hc h.symm
        simp [updDetails, lookupD, hc, hc2]
    · by_cases hc : k = cat
      · subst hc
        have hc2 : ¬ k = c := hk
        simp [updDetails, lookupD, hc2]
      · simp [updDetails, lookupD, hk, hc, ih]

theorem baseOf_addPurpose_le (b : Bool) (d : List (String × Detail)) (w : String → ℕ)
    (c p cat : String) :
    baseOf b d w cat ≤ baseOf b (updDetails c (addPurposeD p) d) w cat := by
  unfold baseOf
  rw [lookupD_upd]
  by_cases hc : cat = c
  · rw [if_pos hc]
    cases hl : lookupD cat d with
    | none => simp
    | some dd =>
      cases hp : dd.purposes with
      | none =>
        simp [addPurposeD, hp, purposesSum]
      | some ps =>
        simp only [Option.map_some', addPurposeD, hp]
        simp [purposesSum]
  · rw [if_neg hc]

theorem sectionSum_addPurpose_le (b : Bool) (items : List String) (w : String → ℕ)
    (d : List (String × Detail)) (c p : String) :
    sectionSum b items w d ≤ sectionSum b items w (updDetails c (addPurposeD p) d) := by
  unfold sectionSum
  exact List.sum_le_sum fun cat _ => baseOf_addPurpose_le b d w c p cat

/-- C1: monotonicity of the intensity scorer - adding any category to any of the
three buckets, or adding any purpose to an existing details entry, never
decreases the integer score. All weights and purpose bonuses are nonnegative,
each stage of the pipeline (per-bucket sum, sqrt-cap transform, sum, logistic,
rounding) is monotone. -/
theorem C1_score_monotone :
    (∀ (app : ScorerInput) (b : BucketName) (c : String),
        privacyScore app ≤ privacyScore (addCategory b c app)) ∧
    (∀ (app : ScorerInput) (c p : String),
        privacyScore app ≤ privacyScore (addPurpose c p app)) := by
  constructor
  · intro app b c
    cases b with
    | track =>
      exact privacyScore_mono
        (sectionSum_cons_le true c (sectionsOf app).track wTrack app.details)
        le_rfl le_rfl
    | linked =>
      exact privacyScore_mono le_rfl
        (sectionSum_cons_le false c (sectionsOf app).linked wLinked app.details)
        le_rfl
    | notLinked =>
      exact privacyScore_mono le_rfl le_rfl
        (sectionSum_cons_le false c (sectionsOf app).notLinked wNotLinked app.details)
  · intro app c p
    exact privacyScore_mono
      (sectionSum_addPurpose_le true (sectionsOf app).track wTrack app.details c p)
      (sectionSum_addPurpose_le false (sectionsOf app).linked wLinked app.details c p)
      (sectionSum_addPurpose_le false (sectionsOf app).notLinked wNotLinked app.details c p)

/-- C2: the score is an integer in [0, 100] and the band matches the documented
thresholds: High iff score ≥ 66, Medium iff 33 ≤ score < 66, Low iff score < 33;
in particular the threshold map sends 0 to Low, 65 to Medium, 66 and 100 to High. -/
theorem C2_bounds_and_bands :
    ∀ app : ScorerInput,
      (0 ≤ privacyScore app ∧ privacyScore app ≤ 100) ∧
      (privacyBand app = Band.High ↔ 66 ≤ privacyScore app) ∧
      (privacyBand app = Band.Medium ↔ 33 ≤ privacyScore app ∧ privacyScore app < 66) ∧
      (privacyBand app = Band.Low ↔ privacyScore app < 33) ∧
      bandOf 0 = Band.Low ∧ bandOf 65 = Band.Medium ∧ bandOf 66 = Band.High ∧
      bandOf 100 = Band.High := by
  intro app
  have hpos := smoothScale_pos (rawTotal app)
  have hlt := smoothScale_lt_100 (rawTotal app)
  have hge : 0 ≤ privacyScore app := by
    unfold privacyScore
    rw [round_eq]
    exact Int.floor_nonneg.mpr (by linarith)
  have hle : privacyScore app ≤ 100 := by
    unfold privacyScore
    rw [round_eq]
    have h101 : (⌊smoothScale (rawTotal app) 140 + 1 / 2⌋ : ℤ) < 101 :=
      Int.floor_lt.mpr (by push_cast; linarith)
    omega
  refine ⟨⟨hge, hle⟩, ?_, ?_, ?_, by decide, by decide, by decide, by decide⟩ <;>
    · unfold privacyBand bandOf
      split_ifs <;> simp_all <;> omega

/-! ### Scorer: the empty record -/

theorem exp_half_ge : (3 / 2 : ℝ) ≤ Real.exp (1 / 2) := by
  have h := Real.add_one_le_exp (1 / 2 : ℝ)
  linarith

theorem exp_half_le : Real.exp (1 / 2) ≤ 1.6488 := by
  have hsq : Real.exp (1 / 2) * Real.exp (1 / 2) = Real.exp 1 := by
    rw [← Real.exp_add]
    norm_num
  have hlt := Real.exp_one_lt_d9
  nlinarith [Real.exp_pos (1 / 2 : ℝ)]

theorem exp_52_eq : Real.exp (5 / 2) = Real.exp 1 * Real.exp 1 * Real.exp (1 / 2) := by
  rw [← Real.exp_add, ← Real.exp_add]
  norm_num

theorem exp_52_bounds : (10.8 : ℝ) ≤ Real.exp (5 / 2) ∧ Real.exp (5 / 2) ≤ (12.2 : ℝ) := by
  have hgt := Real.exp_one_gt_d9
  have hlt := Real.exp_one_lt_d9
  have hh1 := exp_half_ge
  have hh2 := exp_half_le
  have hp := Real.exp_pos (1 : ℝ)
  have hph := Real.exp_pos (1 / 2 : ℝ)
  rw [exp_52_eq]
  constructor
  · nlinarith
  · nlinarith

theorem round_between {v : ℝ} (h1 : (7.5 : ℝ) ≤ v) (h2 : v < 8.5) : round v = 8 := by
  rw [round_eq]
  rw [Int.floor_eq_iff]
  constructor
  · push_cast
    linarith
  · push_cast
    linarith

theorem sectionScore_zero {cap : ℝ} (h : 0 ≤ cap) : sectionScore 0 cap = 0 := by
  unfold sectionScore
  rw [Nat.cast_zero, Real.sqrt_zero, zero_mul]
  exact min_eq_left h

theorem smoothScale_zero : smoothScale 0 140 = 100 / (1 + Real.exp (5 / 2)) := by
  unfold smoothScale
  rw [zero_div, min_eq_right (by norm_num : (0 : ℝ) ≤ 1), max_self]
  rw [div_mul_eq_mul_div, one_mul]
  norm_num

/-- On a record whose three buckets are all empty, every bucket sum is 0, the
raw total is 0 and the logistic maps it to 100/(1+e^2.5), which rounds to 8. -/
theorem emptyScore (app : ScorerInput) (h1 : (sectionsOf app).track = [])
    (h2 : (sectionsOf app).linked = []) (h3 : (sectionsOf app).notLinked = []) :
    privacyScore app = 8 ∧ privacyBand app = Band.Low := by
  have e1 : sumTrack app = 0 := by unfold sumTrack; rw [h1]; rfl
  have e2 : sumLinked app = 0 := by unfold sumLinked; rw [h2]; rfl
  have e3 : sumNotLinked app = 0 := by unfold sumNotLinked; rw [h3]; rfl
  have hraw : rawTotal app = 0 := by
    unfold rawTotal
    rw [e1, e2, e3, sectionScore_zero (by norm_num [CAP_track]),
      sectionScore_zero (by norm_num [CAP_linked]),
      sectionScore_zero (by norm_num [CAP_notLinked])]
    ring
  have hb := exp_52_bounds
  have hE : (0 : ℝ) < 1 + Real.exp (5 / 2) := by positivity
  have h75 : (7.5 : ℝ) ≤ 100 / (1 + Real.exp (5 / 2)) := by
    rw [le_div_iff₀ hE]
    linarith [hb.2]
  have h85 : 100 / (1 + Real.exp (5 / 2)) < 8.5 := by
    rw [div_lt_iff₀ hE]
    linarith [hb.1]
  have hscore : privacyScore app = 8 := by
    unfold privacyScore
    rw [hraw, smoothScale_zero]
    exact round_between h75 h85
  refine ⟨hscore, ?_⟩
  unfold privacyBand
  rw [hscore]
  decide

/-- C3 counterexample: the record with no privacy labels at all scores 8, not 0 -
the logistic curve sends a zero raw total to 100/(1+e^2.5) which rounds to 8. -/
theorem C3_counterexample :
    privacyScore ⟨none, []⟩ = 8 ∧ privacyScore ⟨none, []⟩ ≠ 0 := by
  have h := emptyScore ⟨none, []⟩ rfl rfl rfl
  exact ⟨h.1, by rw [h.1]; decide⟩

/-- C3 (amended): on every record whose three buckets are all empty (including
one with no privacy labels object at all) the scorer succeeds and returns
score 8 with band Low. -/
theorem C3_empty_record :
    ∀ app : ScorerInput,
      (sectionsOf app).track = [] → (sectionsOf app).linked = [] →
      (sectionsOf app).notLinked = [] →
      privacyScore app = 8 ∧ privacyBand app = Band.Low :=
  fun app h1 h2 h3 => emptyScore app h1 h2 h3

/-- Witness for C3: the amended statement applied to the record with no labels. -/
theorem C3_empty_record_witness :
    privacyScore ⟨none, []⟩ = 8 ∧ privacyBand ⟨none, []⟩ = Band.Low :=
  C3_empty_record ⟨none, []⟩ rfl rfl rfl

/-! ### Scorer: the pipeline as the spec words it -/

theorem specLogistic_eq (t : ℝ) :
    specLogistic t = (1 / (1 + Real.exp (-(5 * (t - 1 / 2))))) * 100 := by
  unfold specLogistic SPEC_K
  rw [div_mul_eq_mul_div, one_mul]
  norm_num

/-- C5: the implemented scorer is exactly the documented pipeline - per bucket
`min(sqrt(s)*sqrt(cap), cap)`, caps ordered 70 > 50 > 20, capped scores summed,
the total divided by `maxTotal = 70 + 50 + 20 = 140` (the literal the code
passes to `smoothScale`), clamped to [0,1], sent through the logistic
`100/(1+e^(-5 (t-0.5)))` and rounded to the nearest integer. -/
theorem C5_pipeline :
    (∀ app : ScorerInput, privacyScore app = specScore app) ∧
    CAP_track > CAP_linked ∧ CAP_linked > CAP_notLinked ∧
    SPEC_MAX_TOTAL = CAP_track + CAP_linked + CAP_notLinked ∧
    (140 : ℝ) = SPEC_MAX_TOTAL := by
  refine ⟨fun app => ?_, by norm_num [CAP_track, CAP_linked],
    by norm_num [CAP_linked, CAP_notLinked], rfl,
    by norm_num [SPEC_MAX_TOTAL, CAP_track, CAP_linked, CAP_notLinked]⟩
  unfold privacyScore specScore
  rw [specLogistic_eq]
  have h1 : specRawTotal app = rawTotal app := rfl
  have h2 : SPEC_MAX_TOTAL = (140 : ℝ) := by
    norm_num [SPEC_MAX_TOTAL, CAP_track, CAP_linked, CAP_notLinked]
  rw [h1, h2]
  rfl

/-! ### Cache policy -/

theorem enrichOne_fresh {app : AppEntry} {i : String} {cache : PrivRecord} {now : ℤ}
    {extract : Except Unit PrivRecord} (happ : app.app_id = some i)
    (hfresh : now - cache.asOf < TTL_MS) :
    enrichOne app (some cache) now extract =
      ⟨mergeEnrich app (some cache), none, false, some cache⟩ := by
  unfold enrichOne
  rw [happ]
  simp [hfresh]

theorem enrichOne_stale {app : AppEntry} {i : String} {cache : PrivRecord} {now : ℤ}
    {extract : Except Unit PrivRecord} (happ : app.app_id = some i)
    (hstale : ¬ now - cache.asOf < TTL_MS) :
    enrichOne app (some cache) now extract =
      match extract with
      | Except.ok r => ⟨mergeEnrich app (some r), some r, true, some r⟩
      | Except.error _ => ⟨mergeEnrich app (some cache), none, true, some cache⟩ := by
  unfold enrichOne
  rw [happ]
  simp [hstale]

/-- C8: with the 14-day TTL, a cached record that is 15 days old triggers a call
to the extractor, while a record 1 day old is returned as-is - the extractor is
not called and nothing is rewritten. -/
theorem C8_cache_ttl :
    ∀ (app : AppEntry) (i : String) (cache : PrivRecord) (now : ℤ)
      (extract : Except Unit PrivRecord),
      app.app_id = some i →
      (now - cache.asOf = 15 * 24 * 3600 * 1000 →
        (enrichOne app (some cache) now extract).calledExtractor = true) ∧
      (now - cache.asOf = 1 * 24 * 3600 * 1000 →
        (enrichOne app (some cache) now extract).calledExtractor = false ∧
        (enrichOne app (some cache) now extract).used = some cache ∧
        (enrichOne app (some cache) now extract).saved = none) := by
  intro app i cache now extract happ
  constructor
  · intro h15
    have hstale : ¬ now - cache.asOf < TTL_MS := by
      rw [h15]
      decide
    rw [enrichOne_stale happ hstale]
    cases extract <;> rfl
  · intro h1
    have hfresh : now - cache.asOf < TTL_MS := by
      rw [h1]
      decide
    rw [enrichOne_fresh happ hfresh]
    exact ⟨rfl, rfl, rfl⟩

/-- Witness for C8: a concrete entry with id 111; at 15 days of age the
extractor is called, at 1 day it is not and the cached record flows through. -/
theorem C8_cache_ttl_witness :
    (enrichOne ⟨1, "Acme", "Dev", some "111", none, none⟩ (some ⟨0, ⟨[], [], []⟩⟩)
        (15 * 24 * 3600 * 1000) (Except.error ())).calledExtractor = true ∧
    (enrichOne ⟨1, "Acme", "Dev", some "111", none, none⟩ (some ⟨0, ⟨[], [], []⟩⟩)
        (1 * 24 * 3600 * 1000) (Except.error ())).calledExtractor = false :=
  ⟨(C8_cache_ttl _ "111" _ _ _ rfl).1 (by decide),
   ((C8_cache_ttl _ "111" _ _ _ rfl).2 (by decide)).1⟩

/-- C9: when the extractor fails, an existing cached record (fresh or stale) is
still the one merged and is never overwritten or deleted; with no cached record
the chart entry passes through unchanged without privacy fields; and the pass
always yields one result per input entry. -/
theorem C9_extraction_failure :
    (∀ (app : AppEntry) (i : String) (r : PrivRecord) (now : ℤ),
        app.app_id = some i →
        (enrichOne app (some r) now (Except.error ())).used = some r ∧
        (enrichOne app (some r) now (Except.error ())).saved = none ∧
        (enrichOne app (some r) now (Except.error ())).merged = mergeEnrich app (some r)) ∧
    (∀ (app : AppEntry) (i : String) (now : ℤ),
        app.app_id = some i →
        (enrichOne app none now (Except.error ())).merged = app ∧
        (enrichOne app none now (Except.error ())).used = none ∧
        (enrichOne app none now (Except.error ())).saved = none) ∧
    (∀ (apps : List AppEntry) (cache : AppEntry → Option PrivRecord) (now : ℤ)
        (extract : AppEntry → Except Unit PrivRecord),
        (enrichList apps cache now extract).length = apps.length) := by
  refine ⟨?_, ?_, ?_⟩
  · intro app i r now happ
    by_cases hf : now - r.asOf < TTL_MS
    · rw [enrichOne_fresh happ hf]
      exact ⟨rfl, rfl, rfl⟩
    · rw [enrichOne_stale happ hf]
      exact ⟨rfl, rfl, rfl⟩
  · intro app i now happ
    unfold enrichOne
    rw [happ]
    exact ⟨rfl, rfl, rfl⟩
  · intro apps cache now extract
    unfold enrichList
    exact List.length_map _ _

/-- Witness for C9: concrete failing extraction with and without a cached record. -/
theorem C9_extraction_failure_witness :
    (enrichOne ⟨1, "Acme", "Dev", some "7", none, none⟩ (some ⟨0, ⟨["Location"], [], []⟩⟩)
        (20 * 24 * 3600 * 1000) (Except.error ())).used = some ⟨0, ⟨["Location"], [], []⟩⟩ ∧
    (enrichOne ⟨2, "Beta", "Dev", some "8", none, none⟩ none 0 (Except.error ())).merged =
      ⟨2, "Beta", "Dev", some "8", none, none⟩ :=
  ⟨(C9_extraction_failure.1 _ "7" _ _ rfl).1,
   (C9_extraction_failure.2.1 _ "8" 0 rfl).1⟩

/-! ### Chart deduplication -/

theorem firstWins_nil : firstWins [] = [] := by
  rw [firstWins]

theorem firstWins_cons (a : AppEntry) (rest : List AppEntry) :
    firstWins (a :: rest) =
      a :: firstWins (rest.filter fun b => decide (keyFor b ≠ keyFor a)) := by
  rw [firstWins]

theorem nubAux_firstWins (l : List AppEntry) :
    ∀ seen : List String,
      nubAux keyFor seen l = firstWins (l.filter fun a => decide (keyFor a ∉ seen)) := by
  induction l with
  | nil => intro seen; simp [nubAux, firstWins_nil]
  | cons a rest ih =>
    intro seen
    by_cases h : keyFor a ∈ seen
    · have hdrop : decide (keyFor a ∉ seen) = false := by simp [h]
      simp only [nubAux, if_pos h, List.filter_cons, hdrop]
      exact ih seen
    · have hkeep : decide (keyFor a ∉ seen) = true := by simp [h]
      simp only [nubAux, if_neg h, List.filter_cons, hkeep, if_true]
      rw [firstWins_cons, ih (keyFor a :: seen), List.filter_filter]
      have hfx : (rest.filter fun x => decide (keyFor x ∉ keyFor a :: seen)) =
          rest.filter fun x => decide (keyFor x ≠ keyFor a) && decide (keyFor x ∉ seen) := by
        apply List.filter_congr
        intro x _
        by_cases h1 : keyFor x = keyFor a <;> by_cases h2 : keyFor x ∈ seen <;>
          simp [h1, h2]
      rw [hfx]

/-- C10: combining chart lists deduplicates by identity key - numeric id when
present, lowercased name|developer otherwise - keeping the first occurrence and
dropping later duplicates (`uniqueByAppIdOrKey` equals the first-wins reference
recursion); in particular two entries sharing a numeric id, whatever their name
casing, collapse to the single first entry. -/
theorem C10_dedup :
    (∀ apps : List AppEntry, uniqueByAppIdOrKey apps = firstWins apps) ∧
    (∀ (e1 e2 : AppEntry) (i : String), e1.app_id = some i → e2.app_id = some i →
        uniqueByAppIdOrKey [e1, e2] = [e1]) := by
  constructor
  · intro apps
    have h := nubAux_firstWins apps []
    have hfilter : (apps.filter fun a => decide (keyFor a ∉ ([] : List String))) = apps := by
      apply List.filter_eq_self.mpr
      intro x _
      simp
    rw [hfilter] at h
    exact h
  · intro e1 e2 i h1 h2
    have hk : keyFor e2 = keyFor e1 := by
      unfold keyFor
      rw [h1, h2]
    simp [uniqueByAppIdOrKey, nubKey, nubAux, hk]

/-- Witness for C10: two concrete entries with the same numeric id and different
name casing merge to exactly the first one. -/
theorem C10_dedup_witness :
    uniqueByAppIdOrKey
        [⟨1, "Acme", "Dev", some "111", none, none⟩,
         ⟨2, "ACME", "Dev", some "111", none, none⟩] =
      [⟨1, "Acme", "Dev", some "111", none, none⟩] :=
  C10_dedup.2 _ _ "111" rfl rfl

end Fiosfon
